import Mathlib

/-!
Verification of the ai-content-saas backend's job pipeline.

Shallow embedding of:
- the provider adapter's JSON response parsing (`parseJSONResponse` in the
  AI provider module), over a model of JavaScript `JSON.parse` restricted to
  integer numerals;
- the jobs runner (`processOne` in src/workers/jobs-runner.js): the atomic
  claim step (`findOneAndUpdate`), the per-job retry loop, and the terminal
  writes;
- the `GET /jobs/:id` route handler (src/routes/jobs.js);
- the field normalization of `generateSEOReview` in the AI provider module.

The Job document shape follows the fields the source reads and writes
(id, userId, type, status, payload, result, error, model, tokensUsed,
attempt, claimedBy, claimedAt, createdAt); the schema file itself is not in
the tree, so optional fields are `Option`s, matching a MongoDB document in
which a field may be absent.
-/

/-- JSON values. Numbers are modelled as integers: every numeral appearing in
this development is integral, and no claim depends on fractional values. -/
inductive Json where
  | null
  | bool (b : Bool)
  | num (n : Int)
  | str (s : String)
  | arr (elems : List Json)
  | obj (fields : List (String × Json))
deriving Repr

mutual

/-- Boolean equality on JSON values (nested inductive, so not derivable). -/
def jsonBeq : Json → Json → Bool
  | .null, .null => true
  | .bool a, .bool c => a == c
  | .num a, .num c => a == c
  | .str a, .str c => a == c
  | .arr a, .arr c => jsonBeqList a c
  | .obj a, .obj c => jsonBeqObj a c
  | _, _ => false

/-- Boolean equality on lists of JSON values. -/
def jsonBeqList : List Json → List Json → Bool
  | [], [] => true
  | x :: xs, y :: ys => jsonBeq x y && jsonBeqList xs ys
  | _, _ => false

/-- Boolean equality on JSON object field lists. -/
def jsonBeqObj : List (String × Json) → List (String × Json) → Bool
  | [], [] => true
  | (k, v) :: xs, (k2, v2) :: ys => k == k2 && jsonBeq v v2 && jsonBeqObj xs ys
  | _, _ => false

end

mutual

theorem jsonBeq_sound : ∀ a b, jsonBeq a b = true → a = b
  | .null, .null, _ => rfl
  | .bool _, .bool _, h => by
      simpa [jsonBeq] using congrArg Json.bool (by simpa [jsonBeq] using h)
  | .num _, .num _, h => by
      simpa using congrArg Json.num (by simpa [jsonBeq] using h)
  | .str _, .str _, h => by
      simpa using congrArg Json.str (by simpa [jsonBeq] using h)
  | .arr a, .arr c, h =>
      congrArg Json.arr (jsonBeqList_sound a c (by simpa [jsonBeq] using h))
  | .obj a, .obj c, h =>
      congrArg Json.obj (jsonBeqObj_sound a c (by simpa [jsonBeq] using h))

theorem jsonBeqList_sound : ∀ a b, jsonBeqList a b = true → a = b
  | [], [], _ => rfl
  | x :: xs, y :: ys, h => by
      have h' := h
      simp only [jsonBeqList, Bool.and_eq_true] at h'
      exact congrArg₂ List.cons (jsonBeq_sound x y h'.1) (jsonBeqList_sound xs ys h'.2)

theorem jsonBeqObj_sound : ∀ a b, jsonBeqObj a b = true → a = b
  | [], [], _ => rfl
  | (k, v) :: xs, (k2, v2) :: ys, h => by
      have h' := h
      simp only [jsonBeqObj, Bool.and_eq_true, beq_iff_eq] at h'
      exact congrArg₂ List.cons
        (by exact congrArg₂ Prod.mk h'.1.1 (jsonBeq_sound v v2 h'.1.2))
        (jsonBeqObj_sound xs ys h'.2)

end

mutual

theorem jsonBeq_refl : ∀ a, jsonBeq a a = true
  | .null => rfl
  | .bool b => by simp [jsonBeq]
  | .num n => by simp [jsonBeq]
  | .str s => by simp [jsonBeq]
  | .arr a => by simpa [jsonBeq] using jsonBeqList_refl a
  | .obj a => by simpa [jsonBeq] using jsonBeqObj_refl a

theorem jsonBeqList_refl : ∀ a, jsonBeqList a a = true
  | [] => rfl
  | x :: xs => by
      simp only [jsonBeqList, Bool.and_eq_true]
      exact ⟨jsonBeq_refl x, jsonBeqList_refl xs⟩

theorem jsonBeqObj_refl : ∀ a, jsonBeqObj a a = true
  | [] => rfl
  | (k, v) :: xs => by
      simp only [jsonBeqObj, Bool.and_eq_true]
      refine ⟨⟨?_, jsonBeq_refl v⟩, jsonBeqObj_refl xs⟩
      simp

end

instance : DecidableEq Json := fun a b =>
  if h : jsonBeq a b = true then .isTrue (jsonBeq_sound a b h)
  else .isFalse (fun he => h (he ▸ jsonBeq_refl a))

/-- Result of a fallible computation, carrying an error message on failure.
Used instead of `Except` to get a derived decidable equality. -/
inductive PResult (α : Type) where
  | ok (val : α)
  | fail (msg : String)
deriving Repr, DecidableEq

/-- JSON whitespace (also what the relevant JavaScript regexes accept here). -/
def isJsonWs (c : Char) : Bool :=
  c = ' ' || c = '\t' || c = '\n' || c = '\r'

/-- Skip leading whitespace. -/
def skipWs (cs : List Char) : List Char := cs.dropWhile isJsonWs

/-- Scan the body of a double-quoted JSON string (the opening quote already
consumed), handling the common escapes; returns the decoded string and the
rest of the input. -/
def scanStr : List Char → List Char → Option (String × List Char)
  | [], _ => none
  | '"' :: rest, acc => some (String.mk acc.reverse, rest)
  | '\\' :: e :: rest, acc =>
      let d := if e = 'n' then '\n' else if e = 't' then '\t'
               else if e = 'r' then '\r' else e
      scanStr rest (d :: acc)
  | '\\' :: [], _ => none
  | c :: rest, acc => scanStr rest (c :: acc)

/-- Digits to a natural number. -/
def digitsToNat (ds : List Char) : Nat :=
  ds.foldl (fun n c => n * 10 + (c.toNat - 48)) 0

/-- Parse an integer numeral (optional minus sign, then digits). -/
def scanNum : List Char → Option (Int × List Char)
  | '-' :: rest =>
      let ds := rest.takeWhile Char.isDigit
      if ds.isEmpty then none
      else some (-(digitsToNat ds : Int), rest.drop ds.length)
  | cs =>
      let ds := cs.takeWhile Char.isDigit
      if ds.isEmpty then none
      else some ((digitsToNat ds : Int), cs.drop ds.length)

/-- Drop a literal character sequence from the front of the input. -/
def dropLit : List Char → List Char → Option (List Char)
  | [], cs => some cs
  | p :: ps, c :: cs => if c = p then dropLit ps cs else none
  | _ :: _, [] => none

mutual

/-- Recursive-descent JSON value parser (fuel-indexed), modelling JavaScript
`JSON.parse` on the value grammar restricted to integer numerals. -/
def parseVal (fuel : Nat) (cs : List Char) : PResult (Json × List Char) :=
  match fuel with
  | 0 => .fail "Maximum call stack size exceeded"
  | fuel' + 1 =>
    match skipWs cs with
    | [] => .fail "Unexpected end of JSON input"
    | c :: rest =>
      if c = '{' then parseObjBody fuel' true rest []
      else if c = '[' then parseArrBody fuel' true rest []
      else if c = '"' then
        match scanStr rest [] with
        | some (s, rest') => .ok (Json.str s, rest')
        | none => .fail "Unterminated string in JSON"
      else
        match dropLit ['n', 'u', 'l', 'l'] (c :: rest) with
        | some rest' => .ok (Json.null, rest')
        | none =>
        match dropLit ['t', 'r', 'u', 'e'] (c :: rest) with
        | some rest' => .ok (Json.bool true, rest')
        | none =>
        match dropLit ['f', 'a', 'l', 's', 'e'] (c :: rest) with
        | some rest' => .ok (Json.bool false, rest')
        | none =>
        match scanNum (c :: rest) with
        | some (n, rest') => .ok (Json.num n, rest')
        | none => .fail "Unexpected token in JSON"

/-- Parse the members of a JSON object, after the opening brace. `first` is
true when no member has been consumed yet (so a closing brace is legal). -/
def parseObjBody (fuel : Nat) (first : Bool) (cs : List Char)
    (acc : List (String × Json)) : PResult (Json × List Char) :=
  match fuel with
  | 0 => .fail "Maximum call stack size exceeded"
  | fuel' + 1 =>
    match skipWs cs with
    | [] => .fail "Unexpected end of JSON input"
    | c :: rest =>
      if first ∧ c = '}' then .ok (Json.obj acc.reverse, rest)
      else if c = '"' then
        match scanStr rest [] with
        | none => .fail "Unterminated string in JSON"
        | some (key, rest1) =>
          match skipWs rest1 with
          | ':' :: rest2 =>
            match parseVal fuel' rest2 with
            | .fail m => .fail m
            | .ok (v, rest3) =>
              match skipWs rest3 with
              | ',' :: rest4 => parseObjBody fuel' false rest4 ((key, v) :: acc)
              | '}' :: rest4 => .ok (Json.obj ((key, v) :: acc).reverse, rest4)
              | _ => .fail "Expected comma or closing brace in JSON object"
          | _ => .fail "Expected colon in JSON object"
      else .fail "Expected string key in JSON object"

/-- Parse the elements of a JSON array, after the opening bracket. -/
def parseArrBody (fuel : Nat) (first : Bool) (cs : List Char)
    (acc : List Json) : PResult (Json × List Char) :=
  match fuel with
  | 0 => .fail "Maximum call stack size exceeded"
  | fuel' + 1 =>
    match skipWs cs with
    | [] => .fail "Unexpected end of JSON input"
    | c :: rest =>
      if first ∧ c = ']' then .ok (Json.arr acc.reverse, rest)
      else
        match parseVal fuel' (c :: rest) with
        | .fail m => .fail m
        | .ok (v, rest1) =>
          match skipWs rest1 with
          | ',' :: rest2 => parseArrBody fuel' false rest2 (v :: acc)
          | ']' :: rest2 => .ok (Json.arr (v :: acc).reverse, rest2)
          | _ => .fail "Expected comma or closing bracket in JSON array"

end

/-- Model of JavaScript `JSON.parse`: parse one value and require that only
whitespace follows it. -/
def jsonParse (s : String) : PResult Json :=
  match parseVal (s.length + 1) s.toList with
  | .fail m => .fail m
  | .ok (j, rest) =>
      if (skipWs rest).isEmpty then .ok j
      else .fail "Unexpected non-whitespace character after JSON"

/-- Lowercase an ASCII letter; other characters unchanged. -/
def asciiLower (c : Char) : Char :=
  if 'A' ≤ c ∧ c ≤ 'Z' then Char.ofNat (c.toNat + 32) else c

/-- The backtick character (written by code point to keep it out of the
source text). -/
def backtick : Char := Char.ofNat 96

/-- Three backticks: a code-fence marker. -/
def fence3 : List Char := [backtick, backtick, backtick]

/-- A code-fence marker followed by the letters j, s, o, n (the lowercase
form the case-insensitive leading-fence regex matches). -/
def fenceJson : List Char := fence3 ++ ['j', 's', 'o', 'n']

/-- Model of JavaScript `trim`: drop whitespace from both ends. -/
def trimChars (cs : List Char) : List Char :=
  ((cs.dropWhile isJsonWs).reverse.dropWhile isJsonWs).reverse

/-- Model of the JavaScript replace of the regex anchored at the start that
removes a leading code-fence marker spelled with the letters j-s-o-n
(case-insensitive) followed by optional whitespace, as in the provider
module's cleanup step. -/
def stripLeadingFence (cs : List Char) : List Char :=
  if (cs.take 7).map asciiLower = fenceJson then (cs.drop 7).dropWhile isJsonWs
  else cs

/-- Model of the JavaScript replace of the regex anchored at the end that
removes optional whitespace followed by a trailing code-fence marker. -/
def stripTrailingFence (cs : List Char) : List Char :=
  let r := cs.reverse
  if r.take 3 = fence3 then ((r.drop 3).dropWhile isJsonWs).reverse else cs

/-- The cleaned text the provider module's first parse runs on: trim, then
strip the leading and trailing fence markers. -/
def cleanedText (text : String) : String :=
  String.mk (stripTrailingFence (stripLeadingFence (trimChars text.toList)))

/-- Index of the first occurrence of a character, if any. -/
def firstIdxFrom (c : Char) : List Char → Nat → Option Nat
  | [], _ => none
  | x :: xs, i => if x = c then some i else firstIdxFrom c xs (i + 1)

/-- Index of the first occurrence of a character, if any. -/
def firstIdx (c : Char) (cs : List Char) : Option Nat := firstIdxFrom c cs 0

/-- Index of the last occurrence of a character, if any. -/
def lastIdx (c : Char) (cs : List Char) : Option Nat :=
  match firstIdx c cs.reverse with
  | some k => some (cs.length - 1 - k)
  | none => none

/-- Model of matching the greedy regex that the provider module uses as its
fallback: an opening brace, any characters, a closing brace. A greedy match
spans from the first opening brace to the last closing brace. -/
def greedyBraceMatch (text : String) : Option String :=
  let cs := text.toList
  match firstIdx '{' cs, lastIdx '}' cs with
  | some i, some j =>
      if i < j then some (String.mk ((cs.drop i).take (j + 1 - i))) else none
  | _, _ => none

/-- The error record thrown by `parseJSONResponse` on double failure:
message is the code JSON_PARSE_FAILED, `rawText` the original text, and
`parseError` the message attached from the failed parse. -/
structure ParseFail where
  message : String
  rawText : String
  parseError : String
deriving Repr, DecidableEq

/-- Outcome of `parseJSONResponse`: parsed JSON, or the thrown error record. -/
inductive ParseOut where
  | ok (val : Json)
  | err (e : ParseFail)
deriving Repr, DecidableEq

/-- Model of `parseJSONResponse` in the AI provider module: clean the text
and parse; on failure, match the greedy brace regex against the original
text and parse the match; on failure (or no match), fail with
JSON_PARSE_FAILED carrying the original text and the first parse failure's
message. -/
def parseJSONResponse (text : String) : ParseOut :=
  match jsonParse (cleanedText text) with
  | .ok d => .ok d
  | .fail e1 =>
    match greedyBraceMatch text with
    | some sub =>
      match jsonParse sub with
      | .ok d => .ok d
      | .fail _ => .err ⟨"JSON_PARSE_FAILED", text, e1⟩
    | none => .err ⟨"JSON_PARSE_FAILED", text, e1⟩

/-- Modelled from the spec: the claim's parsing strategy step (b) extracts
"the first balanced braced substring" of the text. Scans from the first
opening brace and returns the prefix ending where the brace depth first
returns to zero. Used only to compare the spec's words with the code. -/
def balancedScan : List Char → Nat → List Char → Option (List Char)
  | [], _, _ => none
  | c :: rest, d, acc =>
      if c = '{' then balancedScan rest (d + 1) (c :: acc)
      else if c = '}' then
        if d = 1 then some (c :: acc).reverse
        else balancedScan rest (d - 1) (c :: acc)
      else balancedScan rest d (c :: acc)

/-- Modelled from the spec: the first balanced braced substring of a text,
per the claim's words, or none when the text has no such substring. -/
def specFirstBalanced (text : String) : Option String :=
  match text.toList.dropWhile (fun c => ¬ (c = '{')) with
  | [] => none
  | cs => (balancedScan cs 0 []).map String.mk

/-- JavaScript truthiness of a JSON value: null, false, zero and the empty
string are falsy; everything else (including empty arrays and objects) is
truthy. -/
def jsTruthy : Json → Bool
  | .null => false
  | .bool b => b
  | .num n => n != 0
  | .str s => s != ""
  | .arr _ => true
  | .obj _ => true

/-- JavaScript property access `v?.key` as used on parsed JSON: a field of an
object (later duplicate keys shadow earlier ones, as in a JS object), absent
on every non-object. -/
def jget (v : Json) (key : String) : Option Json :=
  match v with
  | .obj fields => (fields.reverse.find? (fun f => f.1 == key)).map (fun f => f.2)
  | _ => none

/-- Truthiness of a possibly-absent value (`undefined` is falsy). -/
def truthyOpt (v : Option Json) : Bool :=
  match v with
  | some x => jsTruthy x
  | none => false

/-- Concrete provider text for the C4 counterexample: prose containing two
separate JSON objects. Its first balanced braced substring is valid JSON,
but the greedy regex match (first opening brace to last closing brace) is
not. -/
def c4Text : String := "x \x7b\"a\":1\x7d y \x7b\"b\":2\x7d"

/-- Concrete provider text whose cleaned form (fences stripped) is valid
JSON, exercising the direct-parse branch of the strategy. -/
def c4Fenced : String := "```json\n\x7b\"score\": 85\x7d\n```"

/-- C4 counterexample: the claim says that when direct parsing fails and the
text contains a JSON object, the first balanced braced substring is
extracted and parsed. On this text the first balanced braced substring
parses to a JSON object, yet `parseJSONResponse` fails: the code extracts
the greedy span from the first opening brace to the last closing brace,
which is not valid JSON. The thrown error also carries only the first parse
failure message, not both. -/
theorem parseJSONResponse_first_balanced_counterexample :
    specFirstBalanced c4Text = some "\x7b\"a\":1\x7d" ∧
    jsonParse "\x7b\"a\":1\x7d" = .ok (Json.obj [("a", Json.num 1)]) ∧
    parseJSONResponse c4Text =
      .err ⟨"JSON_PARSE_FAILED", c4Text, "Unexpected token in JSON"⟩ := by
  refine ⟨by decide, by decide, by decide⟩

/-- C4 (amended): for every provider response text, if the text is valid
JSON after trimming and stripping a leading case-insensitive fence-with-json
marker and a trailing fence marker, parsing returns that JSON; otherwise,
if the text has an opening brace followed later by a closing brace, the
greedy span from the first opening brace to the last closing brace is
extracted and parsed; otherwise (or when that parse also fails) parsing
fails with a JSON_PARSE_FAILED error carrying the original text and the
first parse failure's message. -/
theorem parseJSONResponse_strategy (text : String) :
    (∀ j, jsonParse (cleanedText text) = .ok j → parseJSONResponse text = .ok j) ∧
    (∀ e1, jsonParse (cleanedText text) = .fail e1 →
      (∀ sub j, greedyBraceMatch text = some sub → jsonParse sub = .ok j →
          parseJSONResponse text = .ok j) ∧
      (∀ sub e2, greedyBraceMatch text = some sub → jsonParse sub = .fail e2 →
          parseJSONResponse text = .err ⟨"JSON_PARSE_FAILED", text, e1⟩) ∧
      (greedyBraceMatch text = none →
          parseJSONResponse text = .err ⟨"JSON_PARSE_FAILED", text, e1⟩)) := by
  refine ⟨fun j h => ?_,
    fun e1 h1 => ⟨fun sub j hg hp => ?_, fun sub e2 hg hp => ?_, fun hg => ?_⟩⟩
  · simp only [parseJSONResponse, h]
  · simp only [parseJSONResponse, h1, hg, hp]
  · simp only [parseJSONResponse, h1, hg, hp]
  · simp only [parseJSONResponse, h1, hg]

/-- Witness for the amended C4 strategy theorem: on the fenced text the
direct-parse branch fires; on the two-object text the greedy branch fails
and the JSON_PARSE_FAILED error carries the first failure's message. -/
theorem parseJSONResponse_strategy_witness :
    parseJSONResponse c4Fenced = .ok (Json.obj [("score", Json.num 85)]) ∧
    parseJSONResponse c4Text =
      .err ⟨"JSON_PARSE_FAILED", c4Text, "Unexpected token in JSON"⟩ :=
  ⟨(parseJSONResponse_strategy c4Fenced).1 (Json.obj [("score", Json.num 85)])
      (by decide),
   (((parseJSONResponse_strategy c4Text).2 "Unexpected token in JSON"
        (by decide)).2.1 "\x7b\"a\":1\x7d y \x7b\"b\":2\x7d"
      "Unexpected non-whitespace character after JSON" (by decide) (by decide))⟩

/-- A Job document. Fields are the ones the runner and routes read and
write: `id` (the rendered ObjectId), owner, type, status, payload, result,
error, model, tokensUsed, attempt, claim bookkeeping, creation time.
Optional fields model MongoDB fields that may be absent from the document. -/
structure Job where
  id : String
  userId : String
  type : String
  status : String
  payload : Json
  result : Option Json := none
  error : Option Json := none
  model : Option String := none
  tokensUsed : Option Int := none
  attempt : Option Nat := none
  claimedBy : Option String := none
  claimedAt : Option Nat := none
  createdAt : Nat
deriving Repr, DecidableEq

/-- The allowed job types in the runner's claim query. -/
def allowedClaimTypes : List String :=
  ["KEYWORDS", "ARTICLE", "SEO", "META", "IMAGE", "HASHTAGS"]

/-- The claim query's filter in `processOne`: status PENDING, type among the
six allowed types, and `claimedBy` absent or equal to this instance. -/
def claimFilter (instanceId : String) (j : Job) : Bool :=
  j.status == "PENDING" && allowedClaimTypes.contains j.type &&
    (j.claimedBy == none || j.claimedBy == some instanceId)

/-- The claim query's update in `processOne`: set status RUNNING and record
the claiming instance and time. -/
def claimUpdate (instanceId : String) (now : Nat) (j : Job) : Job :=
  { j with status := "RUNNING", claimedBy := some instanceId,
           claimedAt := some now }

/-- The matching job with the smallest `createdAt` (ties broken towards the
front of the list, as a stable ascending sort would). -/
def oldestOf : List Job → Option Job
  | [] => none
  | j :: rest =>
    match oldestOf rest with
    | none => some j
    | some b => if j.createdAt ≤ b.createdAt then some j else some b

/-- Model of the runner's atomic `findOneAndUpdate` claim: select the oldest
matching PENDING job, apply the claim update to it in the store, and return
the post-update document; no job and an unchanged store when nothing
matches. The selection and update are one atomic step. -/
def claimStep (instanceId : String) (now : Nat) (s : List Job) :
    Option Job × List Job :=
  match oldestOf (s.filter (claimFilter instanceId)) with
  | none => (none, s)
  | some j =>
      (some (claimUpdate instanceId now j),
       s.map fun k => if k.id = j.id then claimUpdate instanceId now k else k)

/-- Run a sequence of claim operations (instance, time) against a store,
collecting each operation's returned document. -/
def runClaims : List (String × Nat) → List Job → List (Option Job) × List Job
  | [], s => ([], s)
  | (inst, now) :: rest, s =>
      let r := claimStep inst now s
      let rs := runClaims rest r.2
      (r.1 :: rs.1, rs.2)

/-- How many of the collected claim results returned the job with this id. -/
def claimsOf (jid : String) (rs : List (Option Job)) : Nat :=
  rs.countP fun r =>
    match r with
    | some j => j.id == jid
    | none => false

theorem oldestOf_mem : ∀ {l : List Job} {j : Job}, oldestOf l = some j → j ∈ l := by
  intro l
  induction l with
  | nil => intro j h; simp [oldestOf] at h
  | cons a rest ih =>
      intro j h
      simp only [oldestOf] at h
      cases hr : oldestOf rest with
      | none => rw [hr] at h; cases h; exact List.mem_cons_self _ _
      | some b =>
          rw [hr] at h
          by_cases hle : a.createdAt ≤ b.createdAt
          · simp [hle] at h; cases h; exact List.mem_cons_self _ _
          · simp [hle] at h; exact List.mem_cons_of_mem _ (h ▸ ih hr)

theorem oldestOf_eq_none : ∀ {l : List Job}, oldestOf l = none → l = [] := by
  intro l h
  cases l with
  | nil => rfl
  | cons a rest =>
      simp only [oldestOf] at h
      cases hr : oldestOf rest with
      | none => rw [hr] at h; cases h
      | some b =>
          rw [hr] at h
          by_cases hle : a.createdAt ≤ b.createdAt <;> simp [hle] at h

theorem oldestOf_min : ∀ {l : List Job} {j : Job}, oldestOf l = some j →
    ∀ k ∈ l, j.createdAt ≤ k.createdAt := by
  intro l
  induction l with
  | nil => intro j h; simp [oldestOf] at h
  | cons a rest ih =>
      intro j h k hk
      simp only [oldestOf] at h
      cases hr : oldestOf rest with
      | none =>
          rw [hr] at h
          cases h
          rw [oldestOf_eq_none hr] at hk
          simp at hk
          exact hk ▸ le_refl _
      | some b =>
          rw [hr] at h
          rcases List.mem_cons.mp hk with hka | hkr
          · by_cases hle : a.createdAt ≤ b.createdAt
            · simp [hle] at h; subst h; exact hka ▸ le_refl _
            · simp [hle] at h
              subst hka
              exact le_trans (h ▸ ih hr b (oldestOf_mem hr)) (le_of_not_le hle)
          · by_cases hle : a.createdAt ≤ b.createdAt
            · simp [hle] at h; subst h; exact le_trans hle (ih hr k hkr)
            · simp [hle] at h; exact h ▸ ih hr k hkr

theorem claimFilter_pending {inst : String} {j : Job}
    (h : claimFilter inst j = true) : j.status = "PENDING" := by
  simp only [claimFilter, Bool.and_eq_true, beq_iff_eq] at h
  exact h.1.1

theorem claimStep_some {inst : String} {now : Nat} {s : List Job} {j : Job}
    {s' : List Job} (h : claimStep inst now s = (some j, s')) :
    ∃ j0, j0 ∈ s ∧ claimFilter inst j0 = true ∧
      (∀ k ∈ s, claimFilter inst k = true → j0.createdAt ≤ k.createdAt) ∧
      j = claimUpdate inst now j0 ∧
      s' = s.map fun k => if k.id = j0.id then claimUpdate inst now k else k := by
  unfold claimStep at h
  cases h0 : oldestOf (s.filter (claimFilter inst)) with
  | none => rw [h0] at h; cases h
  | some j0 =>
      rw [h0] at h
      cases h
      refine ⟨j0, ?_, ?_, ?_, rfl, rfl⟩
      · exact (List.mem_filter.mp (oldestOf_mem h0)).1
      · exact (List.mem_filter.mp (oldestOf_mem h0)).2
      · intro k hk hf
        exact oldestOf_min h0 k (List.mem_filter.mpr ⟨hk, hf⟩)

theorem claimStep_store_shape {inst : String} {now : Nat} {s : List Job}
    {r : Option Job} {s' : List Job} (h : claimStep inst now s = (r, s')) :
    ∀ k' ∈ s', ∃ k ∈ s, k'.id = k.id ∧ (k' = k ∨ k'.status = "RUNNING") := by
  unfold claimStep at h
  cases h0 : oldestOf (s.filter (claimFilter inst)) with
  | none =>
      rw [h0] at h; cases h
      exact fun k' hk' => ⟨k', hk', rfl, Or.inl rfl⟩
  | some j0 =>
      rw [h0] at h; cases h
      intro k' hk'
      rcases List.mem_map.mp hk' with ⟨k, hk, hup⟩
      by_cases hid : k.id = j0.id
      · refine ⟨k, hk, ?_, Or.inr ?_⟩ <;> simp [← hup, hid, claimUpdate]
      · refine ⟨k, hk, ?_, Or.inl ?_⟩ <;> simp [← hup, hid]

/-- No job with this id in the store is claimable (PENDING). -/
def noPendingId (jid : String) (s : List Job) : Prop :=
  ∀ k ∈ s, k.id = jid → ¬ k.status = "PENDING"

theorem claimStep_preserves_noPending {jid inst : String} {now : Nat}
    {s : List Job} {r : Option Job} {s' : List Job}
    (h : claimStep inst now s = (r, s')) (hnp : noPendingId jid s) :
    noPendingId jid s' := by
  intro k' hk' hid hpend
  rcases claimStep_store_shape h k' hk' with ⟨k, hk, hkid, hcase⟩
  rcases hcase with hEq | hRun
  · exact hnp k hk (hkid ▸ hid) (hEq ▸ hpend)
  · rw [hRun] at hpend; simp at hpend

theorem claimStep_no_claim {jid inst : String} {now : Nat} {s : List Job}
    {j : Job} {s' : List Job} (h : claimStep inst now s = (some j, s'))
    (hnp : noPendingId jid s) : ¬ j.id = jid := by
  intro hid
  rcases claimStep_some h with ⟨j0, hmem, hfilt, _, hj, _⟩
  have hidj0 : j0.id = jid := by rw [hj] at hid; exact hid
  exact hnp j0 hmem hidj0 (claimFilter_pending hfilt)

theorem claimStep_claimed_noPending {inst : String} {now : Nat} {s : List Job}
    {j : Job} {s' : List Job} (h : claimStep inst now s = (some j, s')) :
    noPendingId j.id s' := by
  rcases claimStep_some h with ⟨j0, _, _, _, hj, hs'⟩
  intro k' hk' hid hpend
  rw [hs'] at hk'
  rcases List.mem_map.mp hk' with ⟨k, _, hup⟩
  by_cases hkid : k.id = j0.id
  · rw [if_pos hkid] at hup
    rw [← hup] at hpend
    simp [claimUpdate] at hpend
  · rw [if_neg hkid] at hup
    rw [← hup] at hid
    rw [hj] at hid
    simp [claimUpdate] at hid
    exact hkid hid

theorem runClaims_noPending {jid : String} : ∀ (ops : List (String × Nat))
    (s : List Job), noPendingId jid s → claimsOf jid (runClaims ops s).1 = 0 := by
  intro ops
  induction ops with
  | nil => intro s _; simp [runClaims, claimsOf]
  | cons op rest ih =>
      intro s hnp
      obtain ⟨inst, now⟩ := op
      simp only [runClaims]
      cases hc : claimStep inst now s with
      | mk r s1 =>
          have hnp1 : noPendingId jid s1 := claimStep_preserves_noPending hc hnp
          cases r with
          | none => simpa [claimsOf, List.countP_cons] using ih s1 hnp1
          | some j =>
              have hne : ¬ j.id = jid := claimStep_no_claim hc hnp
              simp only [claimsOf, List.countP_cons]
              have : (j.id == jid) = false := by
                simp [hne]
              simpa [claimsOf, this] using ih s1 hnp1

theorem runClaims_at_most_one {jid : String} : ∀ (ops : List (String × Nat))
    (s : List Job), claimsOf jid (runClaims ops s).1 ≤ 1 := by
  intro ops
  induction ops with
  | nil => intro s; simp [runClaims, claimsOf]
  | cons op rest ih =>
      intro s
      obtain ⟨inst, now⟩ := op
      simp only [runClaims]
      cases hc : claimStep inst now s with
      | mk r s1 =>
          cases r with
          | none => simpa [claimsOf, List.countP_cons] using ih s1
          | some j =>
              by_cases hid : j.id = jid
              · have hnp1 : noPendingId jid s1 := hid ▸ claimStep_claimed_noPending hc
                have h0 := runClaims_noPending rest s1 hnp1
                simp only [claimsOf, List.countP_cons] at h0 ⊢
                simp [h0, hid]
              · have : (j.id == jid) = false := by simp [hid]
                simpa [claimsOf, List.countP_cons, this] using ih s1

/-- C1: at-most-one claimant. For every store and every sequence of atomic
claim operations, at most one operation returns a given job id (every other
claim observes no match for it); a successful claim returns the job with
status RUNNING and claimedBy the claiming instance; a claim that matches
nothing leaves the store unchanged. -/
theorem claim_at_most_one_claimant (ops : List (String × Nat)) (s : List Job)
    (jid : String) :
    claimsOf jid (runClaims ops s).1 ≤ 1 ∧
    (∀ inst now j s', claimStep inst now s = (some j, s') →
      j.status = "RUNNING" ∧ j.claimedBy = some inst) ∧
    (∀ inst now s', claimStep inst now s = (none, s') → s' = s) := by
  refine ⟨runClaims_at_most_one ops s, fun inst now j s' h => ?_,
    fun inst now s' h => ?_⟩
  · rcases claimStep_some h with ⟨j0, _, _, _, hj, _⟩
    rw [hj]
    exact ⟨rfl, rfl⟩
  · unfold claimStep at h
    cases h0 : oldestOf (s.filter (claimFilter inst)) with
    | none => rw [h0] at h; cases h; rfl
    | some j0 => rw [h0] at h; cases h

/-- A pending unclaimed KEYWORDS job used in concrete claim scenarios. -/
def wsJobA : Job :=
  { id := "aaaaaaaaaaaaaaaaaaaaaaaa", userId := "u1", type := "KEYWORDS",
    status := "PENDING", payload := Json.obj [("seed", Json.str "bikes")],
    createdAt := 1 }

/-- A second pending unclaimed job, created later than `wsJobA`. -/
def wsJobB : Job :=
  { id := "bbbbbbbbbbbbbbbbbbbbbbbb", userId := "u1", type := "ARTICLE",
    status := "PENDING", payload := Json.obj [("topic", Json.str "bikes")],
    createdAt := 2 }

/-- A two-job store with distinct creation times (later job listed first). -/
def wsStore : List Job := [wsJobB, wsJobA]

/-- Witness for C1: on a one-job store, two claim operations (two worker
instances) yield at most one success, and the claim update makes the job
RUNNING and owned by the claiming instance. -/
theorem claim_at_most_one_claimant_witness :
    claimsOf "aaaaaaaaaaaaaaaaaaaaaaaa"
      (runClaims [("w1", 10), ("w2", 11)] [wsJobA]).1 ≤ 1 ∧
    (claimUpdate "w1" 10 wsJobA).status = "RUNNING" ∧
    (claimUpdate "w1" 10 wsJobA).claimedBy = some "w1" := by
  have h := claim_at_most_one_claimant [("w1", 10), ("w2", 11)] [wsJobA]
    "aaaaaaaaaaaaaaaaaaaaaaaa"
  refine ⟨h.1, ?_⟩
  exact h.2.1 "w1" 10 (claimUpdate "w1" 10 wsJobA)
    (claimStep "w1" 10 [wsJobA]).2 (by decide)

/-- C5: claim ordering. A successful claim step returns the update of a
matching job (PENDING, allowed type, claimedBy absent or this instance)
whose createdAt is minimal among all matching jobs; and a subsequent claim
step by the same instance returns a different job with a createdAt no
smaller, so successive claims proceed in creation order. -/
theorem claim_ordering (inst : String) (now : Nat) (s : List Job) (j : Job)
    (s' : List Job) (h : claimStep inst now s = (some j, s')) :
    (∃ j0, j0 ∈ s ∧ claimFilter inst j0 = true ∧ j = claimUpdate inst now j0 ∧
      ∀ k ∈ s, claimFilter inst k = true → j0.createdAt ≤ k.createdAt) ∧
    (∀ now2 k s'', claimStep inst now2 s' = (some k, s'') →
      j.createdAt ≤ k.createdAt ∧ ¬ k.id = j.id) := by
  rcases claimStep_some h with ⟨j0, hj0mem, hj0f, hj0min, hj, hs'⟩
  refine ⟨⟨j0, hj0mem, hj0f, hj, hj0min⟩, fun now2 k s'' h2 => ?_⟩
  rcases claimStep_some h2 with ⟨k0, hk0mem, hk0f, _, hk, _⟩
  rw [hs'] at hk0mem
  rcases List.mem_map.mp hk0mem with ⟨k1, hk1mem, hup⟩
  by_cases hid : k1.id = j0.id
  · rw [if_pos hid] at hup
    have hpend := claimFilter_pending hk0f
    rw [← hup] at hpend
    simp [claimUpdate] at hpend
  · rw [if_neg hid] at hup
    subst hup
    constructor
    · rw [hj, hk]
      simpa [claimUpdate] using hj0min k1 hk1mem hk0f
    · rw [hj, hk]
      simpa [claimUpdate] using hid

/-- Witness for C5: on the two-job store, the first claim returns the older
job and the next claim by the same instance returns the younger one — a
later creation time and a different id. -/
theorem claim_ordering_witness :
    (claimUpdate "w1" 10 wsJobA).createdAt ≤
      (claimUpdate "w1" 11 wsJobB).createdAt ∧
    ¬ (claimUpdate "w1" 11 wsJobB).id = (claimUpdate "w1" 10 wsJobA).id :=
  (claim_ordering "w1" 10 wsStore (claimUpdate "w1" 10 wsJobA)
      (claimStep "w1" 10 wsStore).2 (by decide)).2 11
    (claimUpdate "w1" 11 wsJobB)
    (claimStep "w1" 11 (claimStep "w1" 10 wsStore).2).2 (by decide)

/-- Outcome of one invocation of the generation provider adapter (the
`generateX` call the runner makes on an attempt), as an oracle indexed by
the attempt counter. -/
inductive ProviderOutcome where
  | ok (result : Json) (tokensUsed : Int) (model : String)
  | fail (message : String)
deriving Repr, DecidableEq

/-- The job types whose runner branch requires `title` and `content` in the
payload before calling the provider. -/
def requiresTitleContent (t : String) : Bool :=
  t == "SEO" || t == "META" || t == "IMAGE" || t == "HASHTAGS"

/-- The precondition check the runner's dispatch performs before any provider
call on an attempt: for SEO/META/IMAGE/HASHTAGS, `title` and `content` must
be truthy in the payload; KEYWORDS and ARTICLE have no such check; any other
type is rejected as unsupported. Returns the thrown message, if any. -/
def precheckError (jobType : String) (payload : Json) : Option String :=
  if requiresTitleContent jobType then
    if !(truthyOpt (jget payload "title")) || !(truthyOpt (jget payload "content"))
    then some (jobType ++ " job requires title and content in payload")
    else none
  else if jobType == "KEYWORDS" || jobType == "ARTICLE" then none
  else some ("Unsupported job type: " ++ jobType)

/-- Observable state of the runner's per-job attempt loop: how many provider
calls were made, which backoff delays (in ms) were awaited, the success
write's fields if any, and the error held in `lastErr` when the loop ends. -/
structure LoopState where
  providerCalls : Nat
  backoffs : List Nat
  success : Option (Json × Int × String × Nat)
  lastErr : Option String
deriving Repr, DecidableEq

/-- The backoff the runner awaits after a failed attempt with counter `a`:
300ms plus 300ms per previous attempt (linear). -/
def backoffMs (a : Nat) : Nat := 300 + a * 300

/-- One pass of the runner's `for` loop, from attempt counter `a` with `fuel`
iterations remaining (`fuel = maxAttempts - a` initially). On an attempt: a
failed precondition throws before any provider call, is caught, and is
followed by a backoff; otherwise the provider is invoked once, and either
the success write happens and the loop breaks, or the error is recorded and
a backoff is awaited before the next iteration. -/
def attemptLoop (jobType : String) (payload : Json)
    (oracle : Nat → ProviderOutcome) : Nat → Nat → LoopState → LoopState
  | 0, _, st => st
  | fuel + 1, a, st =>
    match precheckError jobType payload with
    | some msg =>
        attemptLoop jobType payload oracle fuel (a + 1)
          { st with backoffs := st.backoffs ++ [backoffMs a],
                    lastErr := some msg }
    | none =>
        match oracle a with
        | .ok r t m =>
            { st with providerCalls := st.providerCalls + 1,
                      success := some (r, t, m, a + 1), lastErr := none }
        | .fail msg =>
            attemptLoop jobType payload oracle fuel (a + 1)
              { st with providerCalls := st.providerCalls + 1,
                        backoffs := st.backoffs ++ [backoffMs a],
                        lastErr := some msg }

/-- The terminal store write the runner issues for a claimed job after the
attempt loop ends. -/
inductive TerminalWrite where
  | succeeded (result : Json) (model : String) (attempt : Nat) (tokensDelta : Int)
  | failed (attempt : Nat) (errMessage : String)
  | noWrite
deriving Repr, DecidableEq

/-- Process one claimed job: run the attempt loop from the job's stored
attempt counter (0 when absent) up to `maxAttempts`, then determine the
terminal write: the success write from inside the loop, or — when `lastErr`
is set — the FAILED write with `attempt = maxAttempts`. -/
def processClaimed (job : Job) (oracle : Nat → ProviderOutcome)
    (maxAttempts : Nat) : LoopState × TerminalWrite :=
  let a0 := job.attempt.getD 0
  let st := attemptLoop job.type job.payload oracle (maxAttempts - a0) a0
    ⟨0, [], none, none⟩
  match st.success with
  | some (r, t, m, a) => (st, .succeeded r m a t)
  | none =>
      match st.lastErr with
      | some msg => (st, .failed maxAttempts msg)
      | none => (st, .noWrite)

/-- The error object the runner builds with `toJobError` for a FAILED write
(fields the model keeps: type, code, message). -/
def jobErrorObj (ty msg : String) : Json :=
  Json.obj [("type", Json.str ty), ("code", Json.str "AI_CALL_FAILED"),
            ("message", Json.str msg)]

/-- Apply a terminal write to the store, as the runner's `updateOne` on the
job id does: the success write sets SUCCEEDED, result, model and attempt and
increments tokensUsed (absent counts as 0); the FAILED write sets FAILED,
attempt and the structured error. -/
def applyWrite (jid : String) (w : TerminalWrite) (s : List Job) : List Job :=
  match w with
  | .noWrite => s
  | .succeeded r m a t =>
      s.map fun k =>
        if k.id = jid then
          { k with status := "SUCCEEDED", result := some r, model := some m,
                   attempt := some a,
                   tokensUsed := some (k.tokensUsed.getD 0 + t) }
        else k
  | .failed a msg =>
      s.map fun k =>
        if k.id = jid then
          { k with status := "FAILED", attempt := some a,
                   error := some (jobErrorObj "PROVIDER" msg) }
        else k

/-- The best-effort write in the runner's outer catch: mark the claimed job
FAILED with a WORKER_UNCAUGHT error, leaving attempt untouched. -/
def uncaughtWrite (jid : String) (msg : String) (s : List Job) : List Job :=
  s.map fun k =>
    if k.id = jid then
      { k with status := "FAILED", error := some (jobErrorObj "WORKER_UNCAUGHT" msg) }
    else k

/-- The runner instance's mutable state: the module-level `busy` flag and
the job store it talks to. -/
structure RunnerState where
  busy : Bool
  store : List Job
deriving Repr, DecidableEq

/-- How a tick of `processOne` ended. -/
inductive TickOutcome where
  | skippedBusy
  | noJob
  | wroteSucceeded
  | wroteFailed
  | wroteNothing
  | uncaught
deriving Repr, DecidableEq

/-- Model of a full `processOne` tick. If busy, return at once. Otherwise
set busy, run the atomic claim; with no job, release busy and return. With a
claimed job, run the attempt loop and issue the terminal write; when that
write throws (`writeThrows`), the outer catch best-effort marks the job
FAILED with WORKER_UNCAUGHT (`markThrows` models that write failing too, and
being swallowed). The `finally` clears busy on every path. -/
def processOne (instanceId : String) (now : Nat)
    (oracle : Nat → ProviderOutcome) (maxAttempts : Nat)
    (writeThrows markThrows : Bool) (st : RunnerState) :
    RunnerState × TickOutcome :=
  if st.busy then (st, .skippedBusy)
  else
    match claimStep instanceId now st.store with
    | (none, s1) => ({ busy := false, store := s1 }, .noJob)
    | (some j, s1) =>
        match (processClaimed j oracle maxAttempts).2 with
        | .noWrite => ({ busy := false, store := s1 }, .wroteNothing)
        | w =>
            if writeThrows then
              ({ busy := false,
                 store := if markThrows then s1
                          else uncaughtWrite j.id "store write failed" s1 },
               .uncaught)
            else
              ({ busy := false, store := applyWrite j.id w s1 },
               match w with
               | .succeeded _ _ _ _ => .wroteSucceeded
               | _ => .wroteFailed)

theorem range_map_backoff (a n : Nat) :
    (List.range (n + 1)).map (fun i => backoffMs (a + i)) =
      backoffMs a :: (List.range n).map (fun i => backoffMs (a + 1 + i)) := by
  rw [List.range_succ_eq_map]
  simp only [List.map_cons, List.map_map, Nat.add_zero]
  refine congrArg₂ List.cons rfl ?_
  apply List.map_congr_left
  intro i _
  simp only [Function.comp_apply]
  congr 1
  omega

theorem attemptLoop_allFail (tp : String) (p : Json)
    (o : Nat → ProviderOutcome) (e : Nat → String)
    (hpre : precheckError tp p = none) (hf : ∀ a, o a = .fail (e a)) :
    ∀ (fuel a : Nat) (st : LoopState),
      (attemptLoop tp p o fuel a st).providerCalls = st.providerCalls + fuel ∧
      (attemptLoop tp p o fuel a st).backoffs =
        st.backoffs ++ (List.range fuel).map (fun i => backoffMs (a + i)) ∧
      (attemptLoop tp p o fuel a st).success = st.success ∧
      (attemptLoop tp p o fuel a st).lastErr =
        (if fuel = 0 then st.lastErr else some (e (a + fuel - 1))) := by
  intro fuel
  induction fuel with
  | zero =>
      intro a st
      exact ⟨rfl, by show st.backoffs = st.backoffs ++ _; simp, rfl, rfl⟩
  | succ n ih =>
      intro a st
      simp only [attemptLoop, hpre, hf a]
      obtain ⟨h1, h2, h3, h4⟩ := ih (a + 1)
        { st with providerCalls := st.providerCalls + 1,
                  backoffs := st.backoffs ++ [backoffMs a],
                  lastErr := some (e a) }
      refine ⟨?_, ?_, ?_, ?_⟩
      · rw [h1]
        show st.providerCalls + 1 + n = st.providerCalls + (n + 1)
        omega
      · rw [h2, range_map_backoff]
        show (st.backoffs ++ [backoffMs a]) ++ _ = _
        simp
      · exact h3
      · rw [h4, if_neg (Nat.succ_ne_zero n)]
        cases n with
        | zero => simp
        | succ k =>
            rw [if_neg (Nat.succ_ne_zero k)]
            congr 2
            omega

theorem attemptLoop_prefail (tp : String) (p : Json)
    (o : Nat → ProviderOutcome) (msg : String)
    (hpre : precheckError tp p = some msg) :
    ∀ (fuel a : Nat) (st : LoopState),
      (attemptLoop tp p o fuel a st).providerCalls = st.providerCalls ∧
      (attemptLoop tp p o fuel a st).backoffs =
        st.backoffs ++ (List.range fuel).map (fun i => backoffMs (a + i)) ∧
      (attemptLoop tp p o fuel a st).success = st.success ∧
      (attemptLoop tp p o fuel a st).lastErr =
        (if fuel = 0 then st.lastErr else some msg) := by
  intro fuel
  induction fuel with
  | zero =>
      intro a st
      exact ⟨rfl, by show st.backoffs = st.backoffs ++ _; simp, rfl, rfl⟩
  | succ n ih =>
      intro a st
      simp only [attemptLoop, hpre]
      obtain ⟨h1, h2, h3, h4⟩ := ih (a + 1)
        { st with backoffs := st.backoffs ++ [backoffMs a], lastErr := some msg }
      refine ⟨h1, ?_, h3, ?_⟩
      · rw [h2, range_map_backoff]
        show (st.backoffs ++ [backoffMs a]) ++ _ = _
        simp
      · rw [h4, if_neg (Nat.succ_ne_zero n)]
        cases n with
        | zero => simp
        | succ k => rw [if_neg (Nat.succ_ne_zero k)]

theorem applyWrite_failed {jid : String} {a : Nat} {msg : String}
    {s : List Job} {k : Job} (hk : k ∈ applyWrite jid (.failed a msg) s)
    (hid : k.id = jid) : k.status = "FAILED" ∧ k.attempt = some a := by
  simp only [applyWrite] at hk
  rcases List.mem_map.mp hk with ⟨k1, _, hup⟩
  by_cases h1 : k1.id = jid
  · rw [if_pos h1] at hup
    rw [← hup]
    exact ⟨rfl, rfl⟩
  · rw [if_neg h1] at hup
    rw [← hup] at hid
    exact absurd hid h1

/-- C2: retry bound. For a claimed job starting at attempt 0 whose dispatch
precondition passes, if every provider-adapter invocation fails, the runner
makes exactly `maxAttempts` provider invocations, and the terminal write
marks the job FAILED with `attempt = maxAttempts`; applying that write sets
status FAILED and attempt `maxAttempts` on the job document. -/
theorem retry_bound (job : Job) (o : Nat → ProviderOutcome) (e : Nat → String)
    (m : Nat) (ha : job.attempt.getD 0 = 0) (hm : 0 < m)
    (hpre : precheckError job.type job.payload = none)
    (hf : ∀ a, o a = .fail (e a)) :
    (processClaimed job o m).1.providerCalls = m ∧
    (processClaimed job o m).2 = .failed m (e (m - 1)) ∧
    ∀ (s : List Job) (k : Job),
      k ∈ applyWrite job.id (processClaimed job o m).2 s → k.id = job.id →
        k.status = "FAILED" ∧ k.attempt = some m := by
  obtain ⟨h1, h2, h3, h4⟩ :=
    attemptLoop_allFail job.type job.payload o e hpre hf (m - job.attempt.getD 0)
      (job.attempt.getD 0) ⟨0, [], none, none⟩
  simp only [ha, Nat.sub_zero, Nat.zero_add] at h1 h3 h4
  have hmz : ¬ m = 0 := by omega
  rw [if_neg hmz] at h4
  have hres : processClaimed job o m =
      (attemptLoop job.type job.payload o m 0 ⟨0, [], none, none⟩,
       .failed m (e (m - 1))) := by
    simp only [processClaimed, ha, Nat.sub_zero]
    rw [h3, h4]
  refine ⟨?_, ?_, ?_⟩
  · rw [hres]
    exact h1
  · rw [hres]
  · intro s k hk hid
    rw [hres] at hk
    exact applyWrite_failed hk hid

/-- A KEYWORDS job with attempt 0, used as the concrete retry-bound input. -/
def c2Job : Job :=
  { id := "cccccccccccccccccccccccc", userId := "u1", type := "KEYWORDS",
    status := "RUNNING", payload := Json.obj [("seed", Json.str "bikes")],
    attempt := some 0, claimedBy := some "w1", createdAt := 3 }

/-- Witness for C2: with the default `maxAttempts = 3` and a provider that
always fails, the runner makes exactly 3 provider invocations and writes
FAILED with attempt 3. -/
theorem retry_bound_witness :
    (processClaimed c2Job (fun _ => .fail "rate limited") 3).1.providerCalls = 3 ∧
    (processClaimed c2Job (fun _ => .fail "rate limited") 3).2 =
      .failed 3 "rate limited" :=
  ⟨(retry_bound c2Job (fun _ => .fail "rate limited") (fun _ => "rate limited")
      3 (by decide) (by decide) (by decide) (fun _ => rfl)).1,
   (retry_bound c2Job (fun _ => .fail "rate limited") (fun _ => "rate limited")
      3 (by decide) (by decide) (by decide) (fun _ => rfl)).2.1⟩

/-- An SEO job whose payload lacks `title` and `content`: the concrete input
on which the immediate-precondition-failure claim is tested. -/
def c3Job : Job :=
  { id := "dddddddddddddddddddddddd", userId := "u1", type := "SEO",
    status := "RUNNING", payload := Json.obj [("topic", Json.str "bikes")],
    attempt := some 0, claimedBy := some "w1", createdAt := 4 }

/-- C3 counterexample: the claim says such a job fails on its first attempt,
with no backoff delay and marked FAILED immediately. On this SEO job with
`maxAttempts = 3` the runner makes no provider call, but it retries the
precondition failure three times, awaiting the backoff delays 300ms, 600ms
and 900ms, and only then writes FAILED — with attempt 3, not after the
first attempt. (The provider oracle would even succeed if consulted.) -/
theorem precondition_counterexample :
    (processClaimed c3Job (fun _ => .ok Json.null 0 "gemini-2.0-flash-exp") 3).1.providerCalls = 0 ∧
    (processClaimed c3Job (fun _ => .ok Json.null 0 "gemini-2.0-flash-exp") 3).1.backoffs =
      [300, 600, 900] ∧
    (processClaimed c3Job (fun _ => .ok Json.null 0 "gemini-2.0-flash-exp") 3).2 =
      .failed 3 "SEO job requires title and content in payload" := by
  refine ⟨by decide, by decide, by decide⟩

/-- C3 (amended): a claimed SEO/META/IMAGE/HASHTAGS job whose payload lacks
a truthy `title` or `content`, starting at attempt 0, never causes a
provider call; but the precondition error is caught and retried like any
other failure: the runner awaits a backoff delay after each of the
`maxAttempts` failing attempts and then marks the job FAILED with
`attempt = maxAttempts`. -/
theorem precondition_failure_retried (job : Job) (o : Nat → ProviderOutcome)
    (m : Nat) (ha : job.attempt.getD 0 = 0) (hm : 0 < m)
    (ht : requiresTitleContent job.type = true)
    (hmiss : truthyOpt (jget job.payload "title") = false ∨
      truthyOpt (jget job.payload "content") = false) :
    (processClaimed job o m).1.providerCalls = 0 ∧
    (processClaimed job o m).1.backoffs = (List.range m).map backoffMs ∧
    (processClaimed job o m).2 =
      .failed m (job.type ++ " job requires title and content in payload") := by
  have hpre : precheckError job.type job.payload =
      some (job.type ++ " job requires title and content in payload") := by
    rcases hmiss with hmt | hmc
    · simp [precheckError, ht, hmt]
    · simp [precheckError, ht, hmc]
  obtain ⟨h1, h2, h3, h4⟩ :=
    attemptLoop_prefail job.type job.payload o _ hpre (m - job.attempt.getD 0)
      (job.attempt.getD 0) ⟨0, [], none, none⟩
  simp only [ha, Nat.sub_zero, Nat.zero_add] at h1 h2 h3 h4
  have hmz : ¬ m = 0 := by omega
  rw [if_neg hmz] at h4
  have hres : processClaimed job o m =
      (attemptLoop job.type job.payload o m 0 ⟨0, [], none, none⟩,
       .failed m (job.type ++ " job requires title and content in payload")) := by
    simp only [processClaimed, ha, Nat.sub_zero]
    rw [h3, h4]
  refine ⟨by rw [hres]; exact h1, ?_, by rw [hres]⟩
  rw [hres, h2]
  simp

/-- Witness for the amended C3 theorem, at the concrete SEO job with empty
payload and `maxAttempts = 3`. -/
theorem precondition_failure_retried_witness :
    (processClaimed c3Job (fun _ => .ok Json.null 0 "gemini-2.0-flash-exp") 3).1.providerCalls = 0 ∧
    (processClaimed c3Job (fun _ => .ok Json.null 0 "gemini-2.0-flash-exp") 3).1.backoffs =
      (List.range 3).map backoffMs ∧
    (processClaimed c3Job (fun _ => .ok Json.null 0 "gemini-2.0-flash-exp") 3).2 =
      .failed 3 ("SEO" ++ " job requires title and content in payload") :=
  precondition_failure_retried c3Job (fun _ => .ok Json.null 0 "gemini-2.0-flash-exp")
    3 (by decide) (by decide) (by decide) (Or.inl (by decide))

theorem attemptLoop_success_bound (tp : String) (p : Json)
    (o : Nat → ProviderOutcome) :
    ∀ (fuel a : Nat) (st : LoopState) (r : Json) (t : Int) (mo : String)
      (k : Nat),
      (attemptLoop tp p o fuel a st).success = some (r, t, mo, k) →
      st.success = some (r, t, mo, k) ∨ k ≤ a + fuel := by
  intro fuel
  induction fuel with
  | zero => intro a st r t mo k h; exact Or.inl h
  | succ n ih =>
      intro a st r t mo k h
      simp only [attemptLoop] at h
      cases hpc : precheckError tp p with
      | some msg =>
          rw [hpc] at h
          rcases ih (a + 1) _ r t mo k h with hl | hr
          · exact Or.inl hl
          · exact Or.inr (by omega)
      | none =>
          rw [hpc] at h
          cases ho : o a with
          | ok r0 t0 m0 =>
              rw [ho] at h
              simp only [Option.some.injEq, Prod.mk.injEq] at h
              exact Or.inr (by omega)
          | fail msg =>
              rw [ho] at h
              rcases ih (a + 1) _ r t mo k h with hl | hr
              · exact Or.inl hl
              · exact Or.inr (by omega)

theorem claimStep_mem_src {inst : String} {now : Nat} {s : List Job}
    {r : Option Job} {s' : List Job} (h : claimStep inst now s = (r, s')) :
    ∀ k' ∈ s', ∃ k, k ∈ s ∧ (k' = k ∨ k' = claimUpdate inst now k) := by
  unfold claimStep at h
  cases h0 : oldestOf (s.filter (claimFilter inst)) with
  | none =>
      rw [h0] at h; cases h
      exact fun k' hk' => ⟨k', hk', Or.inl rfl⟩
  | some j0 =>
      rw [h0] at h; cases h
      intro k' hk'
      rcases List.mem_map.mp hk' with ⟨k, hk, hup⟩
      by_cases hid : k.id = j0.id
      · rw [if_pos hid] at hup
        exact ⟨k, hk, Or.inr hup.symm⟩
      · rw [if_neg hid] at hup
        exact ⟨k, hk, Or.inl hup.symm⟩

theorem applyWrite_mem {jid : String} {w : TerminalWrite} {s : List Job} :
    ∀ k' ∈ applyWrite jid w s,
      (∃ k, k ∈ s ∧ k'.attempt = k.attempt) ∨
      (∃ r mo a t, w = TerminalWrite.succeeded r mo a t ∧ k'.attempt = some a) ∨
      (∃ a msg, w = TerminalWrite.failed a msg ∧ k'.attempt = some a) := by
  intro k' hk'
  cases w with
  | noWrite => exact Or.inl ⟨k', hk', rfl⟩
  | succeeded r mo a t =>
      simp only [applyWrite] at hk'
      rcases List.mem_map.mp hk' with ⟨k, hk, hup⟩
      by_cases hid : k.id = jid
      · rw [if_pos hid] at hup
        exact Or.inr (Or.inl ⟨r, mo, a, t, rfl, by rw [← hup]⟩)
      · rw [if_neg hid] at hup
        exact Or.inl ⟨k, hk, by rw [← hup]⟩
  | failed a msg =>
      simp only [applyWrite] at hk'
      rcases List.mem_map.mp hk' with ⟨k, hk, hup⟩
      by_cases hid : k.id = jid
      · rw [if_pos hid] at hup
        exact Or.inr (Or.inr ⟨a, msg, rfl, by rw [← hup]⟩)
      · rw [if_neg hid] at hup
        exact Or.inl ⟨k, hk, by rw [← hup]⟩

theorem uncaughtWrite_mem {jid msg : String} {s : List Job} :
    ∀ k' ∈ uncaughtWrite jid msg s, ∃ k, k ∈ s ∧ k'.attempt = k.attempt := by
  intro k' hk'
  simp only [uncaughtWrite] at hk'
  rcases List.mem_map.mp hk' with ⟨k, hk, hup⟩
  by_cases hid : k.id = jid
  · rw [if_pos hid] at hup
    exact ⟨k, hk, by rw [← hup]⟩
  · rw [if_neg hid] at hup
    exact ⟨k, hk, by rw [← hup]⟩

theorem processClaimed_succeeded {job : Job} {o : Nat → ProviderOutcome}
    {m : Nat} {r : Json} {mo : String} {a : Nat} {t : Int}
    (h : (processClaimed job o m).2 = .succeeded r mo a t) :
    (attemptLoop job.type job.payload o (m - job.attempt.getD 0)
      (job.attempt.getD 0) ⟨0, [], none, none⟩).success = some (r, t, mo, a) := by
  simp only [processClaimed] at h
  cases hs : (attemptLoop job.type job.payload o (m - job.attempt.getD 0)
      (job.attempt.getD 0) ⟨0, [], none, none⟩).success with
  | some q =>
      obtain ⟨r', t', mo', a'⟩ := q
      simp only [hs, TerminalWrite.succeeded.injEq] at h
      obtain ⟨h1, h2, h3, h4⟩ := h
      subst h1; subst h2; subst h3; subst h4
      rfl
  | none =>
      simp only [hs] at h
      cases hl : (attemptLoop job.type job.payload o (m - job.attempt.getD 0)
          (job.attempt.getD 0) ⟨0, [], none, none⟩).lastErr with
      | some msg => simp only [hl] at h; cases h
      | none => simp only [hl] at h; cases h

theorem processClaimed_failed {job : Job} {o : Nat → ProviderOutcome}
    {m : Nat} {a : Nat} {msg : String}
    (h : (processClaimed job o m).2 = .failed a msg) : a = m := by
  simp only [processClaimed] at h
  cases hs : (attemptLoop job.type job.payload o (m - job.attempt.getD 0)
      (job.attempt.getD 0) ⟨0, [], none, none⟩).success with
  | some q =>
      obtain ⟨r', t', mo', a'⟩ := q
      simp only [hs] at h
      cases h
  | none =>
      simp only [hs] at h
      cases hl : (attemptLoop job.type job.payload o (m - job.attempt.getD 0)
          (job.attempt.getD 0) ⟨0, [], none, none⟩).lastErr with
      | some msg2 =>
          simp only [hl, TerminalWrite.failed.injEq] at h
          exact h.1.symm
      | none => simp only [hl] at h; cases h

/-- Every job in the store has consumed at most `m` attempts. -/
def attemptsBounded (m : Nat) (s : List Job) : Prop :=
  ∀ j ∈ s, j.attempt.getD 0 ≤ m

/-- C6: attempt-bound invariant. A `processOne` tick run with the configured
`maxAttempts` preserves the invariant that no job's stored attempt counter
exceeds `maxAttempts`: the claim write leaves `attempt` untouched, the
success write stores the succeeding attempt's index plus one (at most
`maxAttempts`), the exhaustion write stores exactly `maxAttempts`, and the
uncaught-error write leaves `attempt` untouched. -/
theorem attempt_bound_invariant (inst : String) (now : Nat)
    (o : Nat → ProviderOutcome) (m : Nat) (wt mt : Bool) (st : RunnerState)
    (h : attemptsBounded m st.store) :
    attemptsBounded m (processOne inst now o m wt mt st).1.store := by
  by_cases hb : st.busy
  · simpa [processOne, hb] using h
  · have hbf : st.busy = false := by simpa using hb
    rcases hcs : claimStep inst now st.store with ⟨r, s1⟩
    have hs1 : attemptsBounded m s1 := by
      intro k' hk'
      rcases claimStep_mem_src hcs k' hk' with ⟨k, hk, hor⟩
      rcases hor with h1 | h1
      · rw [h1]; exact h k hk
      · rw [h1]; simpa [claimUpdate] using h k hk
    cases r with
    | none =>
        simp only [processOne, hbf, Bool.false_eq_true, if_false, hcs]
        exact hs1
    | some j =>
        have haj : j.attempt.getD 0 ≤ m := by
          rcases claimStep_some hcs with ⟨j0, hj0, _, _, hj, _⟩
          rw [hj]
          simpa [claimUpdate] using h j0 hj0
        have huw : attemptsBounded m (uncaughtWrite j.id "store write failed" s1) := by
          intro k' hk'
          rcases uncaughtWrite_mem k' hk' with ⟨k, hk, hat⟩
          rw [hat]
          exact hs1 k hk
        cases hw : (processClaimed j o m).2 with
        | noWrite =>
            simp only [processOne, hbf, Bool.false_eq_true, if_false, hcs, hw]
            exact hs1
        | succeeded rr mo a t =>
            have hbound : a ≤ m := by
              have hsucc := processClaimed_succeeded hw
              rcases attemptLoop_success_bound j.type j.payload o
                  (m - j.attempt.getD 0) (j.attempt.getD 0)
                  ⟨0, [], none, none⟩ rr t mo a hsucc with hl | hr
              · cases hl
              · omega
            simp only [processOne, hbf, Bool.false_eq_true, if_false, hcs, hw]
            cases wt with
            | true =>
                cases mt with
                | true => simpa using hs1
                | false => simpa using huw
            | false =>
                simp only [Bool.false_eq_true, if_false]
                intro k' hk'
                rcases applyWrite_mem k' hk' with ⟨k, hk, hat⟩ | hcase | hcase
                · rw [hat]; exact hs1 k hk
                · rcases hcase with ⟨r2, mo2, a2, t2, hwq, hat⟩
                  cases hwq
                  rw [hat]
                  simpa using hbound
                · rcases hcase with ⟨a2, msg2, hwq, _⟩
                  cases hwq
        | failed a msg =>
            have ham : a = m := processClaimed_failed hw
            simp only [processOne, hbf, Bool.false_eq_true, if_false, hcs, hw]
            cases wt with
            | true =>
                cases mt with
                | true => simpa using hs1
                | false => simpa using huw
            | false =>
                simp only [Bool.false_eq_true, if_false]
                intro k' hk'
                rcases applyWrite_mem k' hk' with ⟨k, hk, hat⟩ | hcase | hcase
                · rw [hat]; exact hs1 k hk
                · rcases hcase with ⟨r2, mo2, a2, t2, hwq, _⟩
                  cases hwq
                · rcases hcase with ⟨a2, msg2, hwq, hat⟩
                  cases hwq
                  rw [hat]
                  simp [ham]

/-- Witness for C6: a tick on a one-job store with all attempts at 0 keeps
every stored attempt counter at or below the default maximum of 3. -/
theorem attempt_bound_invariant_witness :
    attemptsBounded 3
      (processOne "w1" 10 (fun _ => ProviderOutcome.fail "rate limited") 3
        false false ⟨false, [wsJobA]⟩).1.store :=
  attempt_bound_invariant "w1" 10 (fun _ => ProviderOutcome.fail "rate limited")
    3 false false ⟨false, [wsJobA]⟩ (by unfold attemptsBounded; decide)

/-- C7: single-flight runner. A tick that begins with the busy flag set
returns immediately with the skipped outcome and no change to the runner
state (no claim, no job mutation); a tick that begins idle ends with the
busy flag cleared in every outcome — success, attempt exhaustion, no job
found, and uncaught exception. -/
theorem single_flight (inst : String) (now : Nat)
    (o : Nat → ProviderOutcome) (m : Nat) (wt mt : Bool) (st : RunnerState) :
    (st.busy = true →
      processOne inst now o m wt mt st = (st, TickOutcome.skippedBusy)) ∧
    (st.busy = false →
      (processOne inst now o m wt mt st).1.busy = false) := by
  constructor
  · intro hb
    simp [processOne, hb]
  · intro hb
    simp only [processOne, hb, Bool.false_eq_true, if_false]
    rcases hcs : claimStep inst now st.store with ⟨r, s1⟩
    cases r with
    | none => rfl
    | some j =>
        cases hw : (processClaimed j o m).2 with
        | noWrite => simp [hw]
        | succeeded rr mo a t => cases wt <;> simp [hw]
        | failed a msg => cases wt <;> simp [hw]

/-- Witness for C7: from a busy state the tick is a no-op with the skipped
outcome; from an idle state the tick ends with busy cleared. -/
theorem single_flight_witness :
    processOne "w1" 10 (fun _ => ProviderOutcome.fail "rate limited") 3 false
        false ⟨true, [wsJobA]⟩ =
      (⟨true, [wsJobA]⟩, TickOutcome.skippedBusy) ∧
    (processOne "w1" 10 (fun _ => ProviderOutcome.fail "rate limited") 3 false
        false ⟨false, [wsJobA]⟩).1.busy = false :=
  ⟨(single_flight "w1" 10 (fun _ => ProviderOutcome.fail "rate limited") 3
      false false ⟨true, [wsJobA]⟩).1 rfl,
   (single_flight "w1" 10 (fun _ => ProviderOutcome.fail "rate limited") 3
      false false ⟨false, [wsJobA]⟩).2 rfl⟩

/-- A hexadecimal digit, as the route's id regex accepts (case-insensitive). -/
def isHexDigit (c : Char) : Bool :=
  ('0' ≤ c && c ≤ '9') || ('a' ≤ c && c ≤ 'f') || ('A' ≤ c && c ≤ 'F')

/-- The route's Zod id validation: exactly 24 hexadecimal characters. -/
def validJobId (s : String) : Bool :=
  s.length == 24 && s.toList.all isHexDigit

/-- The JobView the route returns on success: always id, userId, type and
status; `result` whenever the stored field is defined (null included);
`error`, `tokensUsed` and `model` only when the stored value is truthy. -/
structure JobView where
  id : String
  userId : String
  type : String
  status : String
  result : Option Json
  error : Option Json
  tokensUsed : Option Int
  model : Option String
deriving Repr, DecidableEq

/-- The response projection in the `GET /jobs/:id` handler: spread-in of
each optional field guarded by the source's checks — definedness for
`result`, truthiness for `error`, `tokensUsed` and `model`. -/
def viewOf (job : Job) : JobView :=
  { id := job.id, userId := job.userId, type := job.type, status := job.status,
    result := job.result,
    error := match job.error with
      | some e => if jsTruthy e then some e else none
      | none => none,
    tokensUsed := match job.tokensUsed with
      | some t => if t != 0 then some t else none
      | none => none,
    model := match job.model with
      | some mo => if mo != "" then some mo else none
      | none => none }

/-- The handler's possible responses with their HTTP statuses: 400 with the
validation message, 401, 404 with body error "Job not found", or 200 with
the projected view. -/
inductive HttpResp where
  | badRequest (message : String)
  | unauthorized
  | notFound
  | ok (view : JobView)
deriving Repr, DecidableEq

/-- Model of the `GET /jobs/:id` handler: validate the id, require an
authenticated user, load the job by id, and return NotFound both when the
job is absent and when it belongs to another user; otherwise project the
view. -/
def getJobById (store : List Job) (requester : Option String)
    (idParam : String) : HttpResp :=
  if !(validJobId idParam) then .badRequest "Invalid job id format"
  else
    match requester with
    | none => .unauthorized
    | some uid =>
        match store.find? (fun j => j.id == idParam) with
        | none => .notFound
        | some job => if job.userId ≠ uid then .notFound else .ok (viewOf job)

/-- C8: ownership noninterference. When the job with the queried id belongs
to user A and the requester B is a different user, the handler returns the
same NotFound response as it does on a store from which that job id is
absent entirely; and the job's data is only ever returned to its owner. -/
theorem jobs_get_ownership (store : List Job) (userB : String)
    (idParam : String) (j : Job) (hv : validJobId idParam = true)
    (hfind : store.find? (fun k => k.id == idParam) = some j)
    (howner : j.userId ≠ userB) :
    getJobById store (some userB) idParam = HttpResp.notFound ∧
    getJobById store (some userB) idParam =
      getJobById (store.filter (fun k => !(k.id == idParam))) (some userB)
        idParam ∧
    ∀ v, getJobById store (some userB) idParam ≠ HttpResp.ok v := by
  have h1 : getJobById store (some userB) idParam = HttpResp.notFound := by
    simp only [getJobById, hv, Bool.not_true, Bool.false_eq_true, if_false,
      hfind]
    rw [if_pos howner]
  have hnone : (store.filter (fun k => !(k.id == idParam))).find?
      (fun k => k.id == idParam) = none := by
    rw [List.find?_eq_none]
    intro k hk
    have := (List.mem_filter.mp hk).2
    simp only [Bool.not_eq_true'] at this
    simp [this]
  have h2 : getJobById (store.filter (fun k => !(k.id == idParam)))
      (some userB) idParam = HttpResp.notFound := by
    simp only [getJobById, hv, Bool.not_true, Bool.false_eq_true, if_false,
      hnone]
  refine ⟨h1, by rw [h1, h2], fun v hv2 => ?_⟩
  rw [h1] at hv2
  cases hv2

/-- A job owned by one user with a stored result, for the ownership witness. -/
def c8Job : Job :=
  { id := "eeeeeeeeeeeeeeeeeeeeeeee", userId := "alice", type := "KEYWORDS",
    status := "SUCCEEDED", payload := Json.obj [("seed", Json.str "bikes")],
    result := some (Json.obj [("topic", Json.str "bikes")]),
    tokensUsed := some 42, model := some "gemini-2.0-flash-exp",
    createdAt := 5 }

/-- Witness for C8: a different user querying the job's id gets NotFound —
identical to querying a store without the job — and never the job data. -/
theorem jobs_get_ownership_witness :
    getJobById [c8Job] (some "bob") "eeeeeeeeeeeeeeeeeeeeeeee" =
      HttpResp.notFound ∧
    getJobById [c8Job] (some "bob") "eeeeeeeeeeeeeeeeeeeeeeee" =
      getJobById ([c8Job].filter
        (fun k => !(k.id == "eeeeeeeeeeeeeeeeeeeeeeee"))) (some "bob")
        "eeeeeeeeeeeeeeeeeeeeeeee" := by
  have h := jobs_get_ownership [c8Job] "bob" "eeeeeeeeeeeeeeeeeeeeeeee" c8Job
    (by decide) (by decide) (by decide)
  exact ⟨h.1, h.2.1⟩

/-- C10: view projection edge cases. The view omits `tokensUsed` exactly
when the stored value is absent or 0, omits `model` exactly when absent or
the empty string, omits `error` exactly when absent or a falsy value, and
includes `result` exactly as stored — JSON null included. In particular a
job with `tokensUsed = 0` is rendered without the field. -/
theorem jobs_view_truthiness (job : Job) :
    ((viewOf job).tokensUsed = none ↔
      (job.tokensUsed = none ∨ job.tokensUsed = some 0)) ∧
    ((viewOf job).model = none ↔ (job.model = none ∨ job.model = some "")) ∧
    ((viewOf job).error = none ↔
      (job.error = none ∨ ∃ e, job.error = some e ∧ jsTruthy e = false)) ∧
    (viewOf job).result = job.result ∧
    (viewOf { job with tokensUsed := some 0 }).tokensUsed = none := by
  refine ⟨?_, ?_, ?_, rfl, rfl⟩
  · cases ht : job.tokensUsed with
    | none => simp [viewOf, ht]
    | some t =>
        by_cases h0 : t = 0
        · simp [viewOf, ht, h0]
        · simp [viewOf, ht, h0]
  · cases hm : job.model with
    | none => simp [viewOf, hm]
    | some mo =>
        by_cases h0 : mo = ""
        · simp [viewOf, hm, h0]
        · simp [viewOf, hm, h0]
  · cases he : job.error with
    | none => simp [viewOf, he]
    | some e =>
        by_cases h0 : jsTruthy e = true
        · simp [viewOf, he, h0]
        · simp only [Bool.not_eq_true] at h0
          simp [viewOf, he, h0]

/-- The normalized fields `generateSEOReview` builds from the parsed
provider response: score, the recommendations list, and the analysis's
`strengths` and `improvements` (the response's `issues`) lists. -/
structure SEONormalized where
  score : Int
  recommendations : List Json
  strengths : List Json
  improvements : List Json
deriving Repr, DecidableEq

/-- JavaScript `Array.isArray(v) ? v : []` on a parsed JSON field. -/
def asArray (v : Option Json) : List Json :=
  match v with
  | some (Json.arr xs) => xs
  | _ => []

/-- The field normalization in `generateSEOReview`: a numeric score is
clamped into `[0, 100]`, a missing or non-numeric score becomes the neutral
default 75, and the three list fields default to empty arrays. `issues` is
mapped to the analysis's `improvements`. -/
def seoNormalize (data : Json) : SEONormalized :=
  { score := match jget data "score" with
      | some (Json.num n) => max 0 (min 100 n)
      | _ => 75,
    recommendations := asArray (jget data "recommendations"),
    strengths := asArray (jget data "strengths"),
    improvements := asArray (jget data "issues") }

/-- C9: SEO score normalization. For every parsed provider response the
normalized score lies in `[0, 100]`; a numeric score is the clamp of the
reported value; a missing or non-numeric score becomes the neutral default
75; and missing recommendations, strengths and issues arrays become empty
lists (normalization is total, so a sparse response cannot crash it). -/
theorem seo_score_normalization (data : Json) :
    (0 ≤ (seoNormalize data).score ∧ (seoNormalize data).score ≤ 100) ∧
    (∀ n, jget data "score" = some (Json.num n) →
      (seoNormalize data).score = max 0 (min 100 n)) ∧
    ((∀ n, jget data "score" ≠ some (Json.num n)) →
      (seoNormalize data).score = 75) ∧
    (jget data "recommendations" = none →
      (seoNormalize data).recommendations = []) ∧
    (jget data "strengths" = none → (seoNormalize data).strengths = []) ∧
    (jget data "issues" = none → (seoNormalize data).improvements = []) := by
  refine ⟨?_, ?_, ?_, ?_, ?_, ?_⟩
  · cases hs : jget data "score" with
    | none => simp [seoNormalize, hs]
    | some v =>
        cases v with
        | num n =>
            simp only [seoNormalize, hs]
            omega
        | null => simp [seoNormalize, hs]
        | bool b => simp [seoNormalize, hs]
        | str s => simp [seoNormalize, hs]
        | arr xs => simp [seoNormalize, hs]
        | obj fs => simp [seoNormalize, hs]
  · intro n hn
    simp [seoNormalize, hn]
  · intro hn
    cases hs : jget data "score" with
    | none => simp [seoNormalize, hs]
    | some v =>
        cases v with
        | num n => exact absurd hs (hn n)
        | null => simp [seoNormalize, hs]
        | bool b => simp [seoNormalize, hs]
        | str s => simp [seoNormalize, hs]
        | arr xs => simp [seoNormalize, hs]
        | obj fs => simp [seoNormalize, hs]
  · intro hr
    simp [seoNormalize, asArray, hr]
  · intro hr
    simp [seoNormalize, asArray, hr]
  · intro hr
    simp [seoNormalize, asArray, hr]

/-- Witness for C9 at a sparse response: an out-of-range numeric score is
clamped to 100 and the missing lists are empty; and at a response with no
score at all the default 75 is used. -/
theorem seo_score_normalization_witness :
    (0 ≤ (seoNormalize (Json.obj [("score", Json.num 250)])).score ∧
      (seoNormalize (Json.obj [("score", Json.num 250)])).score ≤ 100) ∧
    (seoNormalize (Json.obj [("score", Json.num 250)])).score =
      max 0 (min 100 250) ∧
    (seoNormalize (Json.obj [])).score = 75 ∧
    (seoNormalize (Json.obj [])).recommendations = [] :=
  ⟨(seo_score_normalization (Json.obj [("score", Json.num 250)])).1,
   (seo_score_normalization (Json.obj [("score", Json.num 250)])).2.1 250
     (by decide),
   (seo_score_normalization (Json.obj [])).2.2.1
     (fun n h => by simp [jget] at h),
   (seo_score_normalization (Json.obj [])).2.2.2.1 (by decide)⟩
